import Mathlib

/-!
Verification of the decode-buffer-synchronization pipeline of the `vega`
WebCodecs video player against its natural-language specification.

The embedding is shallow: each TypeScript function of the repository is
translated into a Lean definition operating on explicit state values.

* `RingBuffer` embeds `src/audio/ring-buffer.ts` (the Ring Transport):
  the two cursor cells are `Uint32Array` entries, so every store is taken
  modulo 2^32; cursor arithmetic inside `push`/`pop` happens on the loaded
  JavaScript numbers, which is exact integer arithmetic, hence `Int`.
* Float32 audio samples are only ever copied by the ring buffer, never
  computed with, so the sample type is modelled as `Int` (0 = silence).
-/

/-- An audio sample value (Float32 in the source; only copied, never
computed with, so modelled as an integer, with 0 as silence). -/
abbrev Sample := Int

/-- Modulus of a `Uint32Array` cell: JavaScript stores into such a cell
wrap the value to an unsigned 32-bit integer. -/
def U32 : Nat := 4294967296

/-- `TypedArray.prototype.subarray(b, e)` for in-range `b ≤ e`:
the elements at indices `b, …, e-1`. -/
def jsSubarray (l : List Sample) (b e : Nat) : List Sample :=
  (l.take e).drop b

/-- `TypedArray.prototype.set(source, offset)` for an in-range write:
overwrite `target` at `offset, …, offset + source.length - 1`. -/
def jsSet (target source : List Sample) (offset : Nat) : List Sample :=
  target.take offset ++ source ++ target.drop (offset + source.length)

/-- The `SharedArrayBuffer` produced by `getStorageForCapacity`:
zero-initialized storage of a given byte length. -/
structure SharedStorage where
  byteLength : Nat
deriving DecidableEq

/-- `getStorageForCapacity(capacity, Float32Array)` from
`src/audio/ring-buffer.ts`: 4 bytes read pointer + 4 bytes write pointer +
`capacity * Float32Array.BYTES_PER_ELEMENT` (= 4) data bytes. -/
def getStorageForCapacity (capacity : Nat) : SharedStorage :=
  ⟨8 + capacity * 4⟩

/-- The `RingBuffer` state from `src/audio/ring-buffer.ts`: capacity,
the two `Uint32` cursor cells and the `Float32Array` data view. -/
structure RingBuffer where
  capacity : Nat
  readPtr : Nat
  writePtr : Nat
  storageView : List Sample
deriving DecidableEq

/-- The `RingBuffer` constructor applied to a fresh (zero-initialized)
`SharedArrayBuffer`: `capacity = (storage.byteLength - 8) / 4`, both
cursors read 0, data view reads zeros. -/
def RingBuffer.ofStorage (storage : SharedStorage) : RingBuffer :=
  let cap := (storage.byteLength - 8) / 4
  { capacity := cap
    readPtr := 0
    writePtr := 0
    storageView := List.replicate cap 0 }

/-- `availableReadInternal(read, write) = write - read` (exact JS number
arithmetic on the two loaded cursor values). -/
def RingBuffer.availableReadInternal (_rb : RingBuffer) (read write : Nat) : Int :=
  (write : Int) - (read : Int)

/-- `availableWriteInternal(read, write) = capacity - (write - read)`. -/
def RingBuffer.availableWriteInternal (rb : RingBuffer) (read write : Nat) : Int :=
  (rb.capacity : Int) - ((write : Int) - (read : Int))

/-- `available_read()`: loads both cursors and applies
`availableReadInternal`. -/
def RingBuffer.available_read (rb : RingBuffer) : Int :=
  rb.availableReadInternal rb.readPtr rb.writePtr

/-- `available_write()`: loads both cursors and applies
`availableWriteInternal`. -/
def RingBuffer.available_write (rb : RingBuffer) : Int :=
  rb.availableWriteInternal rb.readPtr rb.writePtr

/-- `getCapacity()`. -/
def RingBuffer.getCapacity (rb : RingBuffer) : Nat :=
  rb.capacity

/-- `push(elements)` from `src/audio/ring-buffer.ts`, returning the new
buffer state and the count returned to the caller.  Cursor arithmetic is
exact; the final `Atomics.store` wraps to `Uint32`.  The data-copy index
arithmetic (`.toNat` conversions) is exact for every state in which
`0 ≤ toWrite`, which holds in every state the data theorems quantify
over. -/
def RingBuffer.push (rb : RingBuffer) (elements : List Sample) : RingBuffer × Int :=
  let read := rb.readPtr
  let write := rb.writePtr
  let availableWrite := rb.availableWriteInternal read write
  let toWrite := min availableWrite (elements.length : Int)
  if toWrite = 0 then (rb, 0)
  else
    let writeIndex := write % rb.capacity
    let firstPart := min toWrite ((rb.capacity : Int) - (writeIndex : Int))
    let secondPart := toWrite - firstPart
    let storage1 := jsSet rb.storageView (jsSubarray elements 0 firstPart.toNat) writeIndex
    let storage2 :=
      if 0 < secondPart then
        jsSet storage1 (jsSubarray elements firstPart.toNat toWrite.toNat) 0
      else storage1
    ({ rb with
        writePtr := (((write : Int) + toWrite) % (U32 : Int)).toNat
        storageView := storage2 },
      toWrite)

/-- `pop(elements)` from `src/audio/ring-buffer.ts`, returning the new
buffer state, the destination buffer contents after the call, and the
count returned to the caller. -/
def RingBuffer.pop (rb : RingBuffer) (elements : List Sample) :
    RingBuffer × List Sample × Int :=
  let read := rb.readPtr
  let write := rb.writePtr
  let availableRead := rb.availableReadInternal read write
  let toRead := min availableRead (elements.length : Int)
  if toRead = 0 then (rb, elements, 0)
  else
    let readIndex := read % rb.capacity
    let firstPart := min toRead ((rb.capacity : Int) - (readIndex : Int))
    let secondPart := toRead - firstPart
    let out1 := jsSet elements (jsSubarray rb.storageView readIndex (readIndex + firstPart.toNat)) 0
    let out2 :=
      if 0 < secondPart then
        jsSet out1 (jsSubarray rb.storageView 0 secondPart.toNat) firstPart.toNat
      else out1
    ({ rb with readPtr := (((read : Int) + toRead) % (U32 : Int)).toNat },
      out2, toRead)

/-- One operation of a producer/consumer history on the Ring Transport. -/
inductive RingOp
  | pushOp (elements : List Sample)
  | popOp (len : Nat)

/-- Run a sequence of operations, accumulating the total count returned
by `push` (elements accepted) and by `pop` (elements read).  A `pop`
caller hands the buffer it owns; its prior contents do not influence
cursors or counts, so zeros are passed. -/
def runOps (rb : RingBuffer) : List RingOp → RingBuffer × Int × Int
  | [] => (rb, 0, 0)
  | RingOp.pushOp es :: rest =>
    let s := rb.push es
    let r := runOps s.1 rest
    (r.1, r.2.1 + s.2, r.2.2)
  | RingOp.popOp n :: rest =>
    let s := rb.pop (List.replicate n 0)
    let r := runOps s.1 rest
    (r.1, r.2.1, r.2.2 + s.2.2)

/-! ### Player-side data model: frames, clock, selection, adapter, seek -/

/-- A decoded video frame: `id` models JavaScript object identity (the
`===`/`!==` reference comparisons), `timestamp` the presentation
timestamp.  Timestamps and times are JavaScript numbers, modelled as
rationals. -/
structure Frame where
  id : Nat
  timestamp : Rat
deriving DecidableEq

/-- The frame-scan loop shared by `renderVideo` in
`src/worker/media-worker.ts` and `renderFrame` in `src/vega.ts`: walk the
whole buffer keeping the index of the strictly smallest
`|target - timestamp|` seen so far.  The accumulator `none` models
`minDelta = Number.MAX_VALUE, bestIndex = -1` (every finite delta beats
`MAX_VALUE`). -/
def bestLoop (target : Rat) : List Frame → Nat → Option (Nat × Rat) → Option (Nat × Rat)
  | [], _, best => best
  | f :: rest, i, best =>
    let delta := |target - f.timestamp|
    match best with
    | none => bestLoop target rest (i + 1) (some (i, delta))
    | some (bi, bd) =>
      if delta < bd then bestLoop target rest (i + 1) (some (i, delta))
      else bestLoop target rest (i + 1) (some (bi, bd))

/-- Result of one frame-selection pass: the frame handed to the caller,
the remaining buffer, and the stale frames that were closed. -/
structure SelectResult where
  selected : Option Frame
  buffer : List Frame
  released : List Frame
deriving DecidableEq

/-- The selection step of `renderVideo` (`src/worker/media-worker.ts`)
and of `VegaPlayer.renderFrame` (`src/vega.ts`), which share this code:
scan for the best index, close frames `0 … bestIndex-1`,
`splice(0, bestIndex)`, then `shift()` the selected frame out. -/
def renderVideoSelect (buf : List Frame) (target : Rat) : SelectResult :=
  match bestLoop target buf 0 none with
  | none => ⟨none, buf, []⟩
  | some (bi, _) => ⟨(buf.drop bi).head?, buf.drop (bi + 1), buf.take bi⟩

/-- The scan loop of `VideoRendererWorker.chooseFrame` (worker-side
video renderer): like `bestLoop` but the `else` branch of the comparison
BREAKS out of the loop ("timestamps are monotonically increasing, so we
can stop"). -/
def chooseFrameScan (target : Rat) : List Frame → Nat → Option (Nat × Rat) → Option (Nat × Rat)
  | [], _, best => best
  | f :: rest, i, best =>
    let delta := |target - f.timestamp|
    match best with
    | none => chooseFrameScan target rest (i + 1) (some (i, delta))
    | some (bi, bd) =>
      if delta < bd then chooseFrameScan target rest (i + 1) (some (i, delta))
      else some (bi, bd)

/-- `VideoRendererWorker.chooseFrame` from the worker-side video
renderer: scans with early break, closes the `frameIndex` stale frames
and `splice(0, frameIndex)`s them off, then returns `frameBuffer[0]`
WITHOUT removing it from the buffer.  Returns (chosen frame, buffer
after the call, closed frames). -/
def chooseFrame (buf : List Frame) (target : Rat) : Option Frame × List Frame × List Frame :=
  if buf.length = 0 then (none, buf, [])
  else
    match chooseFrameScan target buf 0 none with
    | none => (none, buf, [])
    | some (fi, _) => ((buf.drop fi).head?, buf.drop fi, buf.take fi)

/-- `VegaPlayer.getCurrentPlaybackTime` (`src/vega.ts`):
`playbackStartMediaTime + (performance.now() - playbackStartTime) / 1000`
(milliseconds to seconds). -/
def getCurrentPlaybackTime (playbackStartMediaTime playbackStartTime now : Rat) : Rat :=
  playbackStartMediaTime + (now - playbackStartTime) / 1000

/-- `getMediaTimeMicroseconds` (`src/worker/media-worker.ts`):
`(lastMediaTimeSecs * 1000 + msecsSinceCapture) * 1000` where
`msecsSinceCapture = performance.now() - lastMediaTimeCapturePoint`. -/
def getMediaTimeMicroseconds (lastMediaTimeSecs lastMediaTimeCapturePoint now : Rat) : Rat :=
  (lastMediaTimeSecs * 1000 + (now - lastMediaTimeCapturePoint)) * 1000

/-- The `PlaybackState` union from the public API types. -/
inductive PlaybackState
  | idle
  | loading
  | ready
  | playing
  | paused
  | seeking
  | ended
  | error
deriving DecidableEq

/-- The `currentTime` getter (`src/vega.ts`): the live clock while
playing, the stored `_currentTime` otherwise. -/
def currentTime (state : PlaybackState) (storedCurrentTime : Rat)
    (playbackStartMediaTime playbackStartTime now : Rat) : Rat :=
  if state = PlaybackState.playing
  then getCurrentPlaybackTime playbackStartMediaTime playbackStartTime now
  else storedCurrentTime

/-- Clamping a clock reading to `[0, duration]`, written from the
spec's words ("clamped to `[0, duration]`") for comparison with the
code's clock, which does not clamp. -/
def specClampToDuration (duration x : Rat) : Rat :=
  min (max x 0) duration

/-- The `VegaErrorCode` union from the public API types. -/
inductive VegaErrorCode
  | LOAD_ERROR
  | DECODE_ERROR
  | DEMUX_ERROR
  | RENDER_ERROR
  | ADAPTER_ERROR
  | UNSUPPORTED_FORMAT
  | NETWORK_ERROR
deriving DecidableEq

/-- Externally observable effects of one render tick that the adapter
claims are about. -/
inductive PlayerEvent
  | errorEvent (code : Option VegaErrorCode)
deriving DecidableEq

/-- Outcome of one `VegaPlayer.renderFrame` tick: remaining pending
frames, session state, frames closed by the player pipeline itself (in
order), events emitted, and the frame handed to `renderer.draw` (none
when the tick was skipped). -/
structure RenderTick where
  pending : List Frame
  state : PlaybackState
  released : List Frame
  events : List PlayerEvent
  drawn : Option Frame
deriving DecidableEq

/-- `VegaPlayer.renderFrame` (`src/vega.ts`): select the best pending
frame (closing stale ones), run the optional adapter
(`process : Frame → Frame`, which may throw — modelled as `Except`), and
draw.  On an adapter throw the `catch` closes `bestFrame`, emits a
non-fatal `error` event with code `RENDER_ERROR`, and skips the draw;
the session state field is not touched by this path (`handleError`,
which sets `state = "error"`, is not called).  When the adapter returns
a frame different from its input, the pipeline closes the input
(`if (processed !== bestFrame) bestFrame.close()`).  `renderer.draw`
itself is modelled as succeeding; the drawn frame is recorded. -/
def renderFrame (pending : List Frame) (state : PlaybackState)
    (adapter : Option (Frame → Except Unit Frame)) (targetTime : Rat) : RenderTick :=
  if pending.length = 0 then ⟨pending, state, [], [], none⟩
  else
    let sel := renderVideoSelect pending targetTime
    match sel.selected with
    | none => ⟨sel.buffer, state, sel.released, [], none⟩
    | some bestFrame =>
      match adapter with
      | none => ⟨sel.buffer, state, sel.released, [], some bestFrame⟩
      | some process =>
        match process bestFrame with
        | Except.error _ =>
          ⟨sel.buffer, state, sel.released ++ [bestFrame],
            [PlayerEvent.errorEvent (some VegaErrorCode.RENDER_ERROR)], none⟩
        | Except.ok g =>
          if g = bestFrame then ⟨sel.buffer, state, sel.released, [], some g⟩
          else ⟨sel.buffer, state, sel.released ++ [bestFrame], [], some g⟩

/-- Observable actions of a `seek` call, in program order, across both
contexts (`VegaPlayer.seek` in `src/vega.ts` and the worker's
`case "seek"` handler in `src/worker/media-worker.ts`). -/
inductive SeekAction
  | pauseCmd
  | seekingEvent
  | closeRenderFrame (f : Frame)
  | seekCmd (t : Rat)
  | closeWorkerFrame (f : Frame)
  | decoderFlush
  | decoderRefill
  | seekDone (t : Rat)
  | seekedEvent
  | promiseResolved
deriving DecidableEq

/-- The state touched by `seek`: session state, loaded media duration
(`none` when `_mediaInfo` is null), stored `_currentTime`, render-side
`pendingFrames` and decode-side `videoFrameBuffer`. -/
structure PlayerSeekState where
  state : PlaybackState
  mediaDuration : Option Rat
  currentTimeStored : Rat
  pending : List Frame
  workerFrames : List Frame
deriving DecidableEq

/-- `VegaPlayer.seek(time)` composed with the worker's seek handler:
throws when no media is loaded; otherwise pauses if playing, enters
`seeking`, clamps the target to `[0, duration]`, closes every pending
render-side frame, sends the seek command; the worker closes every
buffered frame, flushes the decoder, refills, and posts `seek-done`;
only then the promise resolves with `_currentTime = target` and the
state restored to playing/paused according to the pre-seek state (the
trailing `play()` call when it was playing is a no-op because the state
is already `"playing"`). -/
def seek (s : PlayerSeekState) (time : Rat) :
    Except String (PlayerSeekState × List SeekAction) :=
  match s.mediaDuration with
  | none => Except.error "No media loaded"
  | some duration =>
    let wasPlaying := s.state = PlaybackState.playing
    let targetTime := max 0 (min time duration)
    Except.ok
      ({ state := if wasPlaying then PlaybackState.playing else PlaybackState.paused
         mediaDuration := s.mediaDuration
         currentTimeStored := targetTime
         pending := []
         workerFrames := [] },
        (if wasPlaying then [SeekAction.pauseCmd] else [])
          ++ [SeekAction.seekingEvent]
          ++ s.pending.map SeekAction.closeRenderFrame
          ++ [SeekAction.seekCmd targetTime]
          ++ s.workerFrames.map SeekAction.closeWorkerFrame
          ++ [SeekAction.decoderFlush, SeekAction.decoderRefill,
              SeekAction.seekDone targetTime, SeekAction.seekedEvent,
              SeekAction.promiseResolved])

/-- `FRAME_BUFFER_TARGET` from `src/worker/media-worker.ts`; it is both
the frame-buffer target depth and the decoder saturation threshold. -/
def FRAME_BUFFER_TARGET : Nat := 3

/-- An encoded sample pulled from the demuxer (`MP4Sample`); the fill
loop only forwards samples to the decoder, so the payload fields are
opaque to the claims. -/
structure EncSample where
  cts : Int
  durationTicks : Int
  timescale : Nat
  isSync : Bool
deriving DecidableEq

/-- The state read and written by `VideoDecoderWrapper.fillBuffer`
(`src/worker/media-worker.ts`): the re-entrancy flag, the current
`videoFrameBuffer.length`, the decoder's `decodeQueueSize`, and the
remaining sample stream (`getNextSample` yields its head, `none` at
exhaustion). -/
structure DecoderState where
  fillInProgress : Bool
  frameBufferLen : Nat
  decodeQueueSize : Nat
  samples : List EncSample
deriving DecidableEq

/-- The `while` loop of `fillBuffer`: while the frame buffer is below
target AND the decode queue is below target, pull the next sample (break
at exhaustion) and submit it (`decoder.decode(chunk)` increments
`decodeQueueSize`).  Returns (remaining samples, final queue size,
number submitted). -/
def fillLoop (bufLen : Nat) : List EncSample → Nat → List EncSample × Nat × Nat
  | [], queueSize => ([], queueSize, 0)
  | s :: rest, queueSize =>
    if bufLen < FRAME_BUFFER_TARGET ∧ queueSize < FRAME_BUFFER_TARGET then
      let r := fillLoop bufLen rest (queueSize + 1)
      (r.1, r.2.1, r.2.2 + 1)
    else (s :: rest, queueSize, 0)

/-- `VideoDecoderWrapper.fillBuffer`: a no-op returning immediately when
a fill is already in flight, otherwise runs the fill loop (the flag is
set for the duration of the loop and cleared before returning).  Returns
the new state and the number of samples submitted to the decoder. -/
def fillBuffer (st : DecoderState) : DecoderState × Nat :=
  if st.fillInProgress then (st, 0)
  else
    let r := fillLoop st.frameBufferLen st.samples st.decodeQueueSize
    ({ fillInProgress := false
       frameBufferLen := st.frameBufferLen
       decodeQueueSize := r.2.1
       samples := r.1 }, r.2.2)

/-- C10: constructing a `RingBuffer` from `getStorageForCapacity c`
yields capacity `c`, zero elements readable and `c` writable. -/
theorem ringBuffer_storage_roundtrip (c : Nat) (_hc : 0 < c) :
    (RingBuffer.ofStorage (getStorageForCapacity c)).getCapacity = c ∧
    (RingBuffer.ofStorage (getStorageForCapacity c)).available_read = 0 ∧
    (RingBuffer.ofStorage (getStorageForCapacity c)).available_write = (c : Int) := by
  have hcap : (RingBuffer.ofStorage (getStorageForCapacity c)).capacity = c := by
    simp [RingBuffer.ofStorage, getStorageForCapacity]
  refine ⟨hcap, ?_, ?_⟩
  · simp [RingBuffer.ofStorage, RingBuffer.available_read, RingBuffer.availableReadInternal]
  · simp [RingBuffer.available_write, RingBuffer.availableWriteInternal, hcap]
    simp [RingBuffer.ofStorage]

/-- C10 witness at capacity 3. -/
theorem ringBuffer_storage_roundtrip_witness :
    (RingBuffer.ofStorage (getStorageForCapacity 3)).getCapacity = 3 ∧
    (RingBuffer.ofStorage (getStorageForCapacity 3)).available_read = 0 ∧
    (RingBuffer.ofStorage (getStorageForCapacity 3)).available_write = (3 : Int) :=
  ringBuffer_storage_roundtrip 3 (by decide)

/-- `push` never touches the read cursor. -/
theorem RingBuffer.push_readPtr (rb : RingBuffer) (es : List Sample) :
    (rb.push es).1.readPtr = rb.readPtr := by
  by_cases h0 : min (rb.availableWriteInternal rb.readPtr rb.writePtr) (es.length : Int) = 0 <;>
    simp [RingBuffer.push, h0]

/-- `push` never changes the capacity. -/
theorem RingBuffer.push_capacity (rb : RingBuffer) (es : List Sample) :
    (rb.push es).1.capacity = rb.capacity := by
  by_cases h0 : min (rb.availableWriteInternal rb.readPtr rb.writePtr) (es.length : Int) = 0 <;>
    simp [RingBuffer.push, h0]

/-- `push` returns `min(available_write, elements.length)` in both
branches (the early `return 0` is taken exactly when that minimum is
zero). -/
theorem RingBuffer.push_count (rb : RingBuffer) (es : List Sample) :
    (rb.push es).2 = min rb.available_write (es.length : Int) := by
  by_cases h0 : min (rb.availableWriteInternal rb.readPtr rb.writePtr) (es.length : Int) = 0 <;>
    simp [RingBuffer.push, RingBuffer.available_write, h0]

/-- The write cursor after `push`: the loaded value plus the count
written, stored back as a `Uint32`. -/
theorem RingBuffer.push_writePtr (rb : RingBuffer) (es : List Sample)
    (hw : rb.writePtr < U32) :
    ((rb.push es).1.writePtr : Int) =
      ((rb.writePtr : Int) + (rb.push es).2) % (U32 : Int) := by
  by_cases h0 : min (rb.availableWriteInternal rb.readPtr rb.writePtr) (es.length : Int) = 0 <;>
    simp only [RingBuffer.push, h0, if_true, if_false, eq_self_iff_true, ite_true, ite_false] <;>
    simp only [U32] at hw ⊢ <;>
    push_cast <;>
    omega

/-- `pop` never touches the write cursor. -/
theorem RingBuffer.pop_writePtr (rb : RingBuffer) (dest : List Sample) :
    (rb.pop dest).1.writePtr = rb.writePtr := by
  by_cases h0 : min (rb.availableReadInternal rb.readPtr rb.writePtr) (dest.length : Int) = 0 <;>
    simp [RingBuffer.pop, h0]

/-- `pop` never changes the capacity. -/
theorem RingBuffer.pop_capacity (rb : RingBuffer) (dest : List Sample) :
    (rb.pop dest).1.capacity = rb.capacity := by
  by_cases h0 : min (rb.availableReadInternal rb.readPtr rb.writePtr) (dest.length : Int) = 0 <;>
    simp [RingBuffer.pop, h0]

/-- `pop` returns `min(available_read, elements.length)` in both
branches. -/
theorem RingBuffer.pop_count (rb : RingBuffer) (dest : List Sample) :
    (rb.pop dest).2.2 = min rb.available_read (dest.length : Int) := by
  by_cases h0 : min (rb.availableReadInternal rb.readPtr rb.writePtr) (dest.length : Int) = 0 <;>
    simp [RingBuffer.pop, RingBuffer.available_read, h0]

/-- The read cursor after `pop`: the loaded value plus the count read,
stored back as a `Uint32`. -/
theorem RingBuffer.pop_readPtr (rb : RingBuffer) (dest : List Sample)
    (hr : rb.readPtr < U32) :
    ((rb.pop dest).1.readPtr : Int) =
      ((rb.readPtr : Int) + (rb.pop dest).2.2) % (U32 : Int) := by
  by_cases h0 : min (rb.availableReadInternal rb.readPtr rb.writePtr) (dest.length : Int) = 0 <;>
    simp only [RingBuffer.pop, h0, if_true, if_false, eq_self_iff_true, ite_true, ite_false] <;>
    simp only [U32] at hr ⊢ <;>
    push_cast <;>
    omega

/-- Invariant tying a reachable ring-buffer state to the running totals
`p` (elements accepted by `push`) and `q` (elements read by `pop`): the
cursor cells hold the totals reduced mod 2^32, and the loaded cursor
difference never exceeds the capacity. -/
structure RingInv (rb : RingBuffer) (p q : Int) : Prop where
  readLt : rb.readPtr < U32
  writeLt : rb.writePtr < U32
  qNonneg : 0 ≤ q
  qLeP : q ≤ p
  readEq : (rb.readPtr : Int) = q % (U32 : Int)
  writeEq : (rb.writePtr : Int) = p % (U32 : Int)
  diffLe : (rb.writePtr : Int) - (rb.readPtr : Int) ≤ (rb.capacity : Int)

/-- The freshly constructed buffer satisfies the invariant with zero
totals. -/
theorem RingInv.initial (storage : SharedStorage) :
    RingInv (RingBuffer.ofStorage storage) 0 0 := by
  refine ⟨?_, ?_, le_refl 0, le_refl 0, ?_, ?_, ?_⟩ <;>
    (simp [RingBuffer.ofStorage, U32]; try positivity)

/-- `push` preserves the invariant, adding its returned count to the
pushed total. -/
theorem RingInv.pushStep {rb : RingBuffer} {p q : Int}
    (h : RingInv rb p q) (es : List Sample) :
    RingInv (rb.push es).1 (p + (rb.push es).2) q := by
  have hcnt := rb.push_count es
  unfold RingBuffer.available_write RingBuffer.availableWriteInternal at hcnt
  have hw := rb.push_writePtr es h.writeLt
  have hr := rb.push_readPtr es
  have hcap := rb.push_capacity es
  have hrlt := h.readLt
  have hwlt := h.writeLt
  have hq0 := h.qNonneg
  have hqp := h.qLeP
  have hre := h.readEq
  have hwe := h.writeEq
  have hd := h.diffLe
  have hp0 : 0 ≤ (rb.push es).2 := by
    rw [hcnt]
    exact le_min (by linarith) (by positivity)
  have hp2 : (rb.push es).2 ≤ (rb.capacity : Int) - ((rb.writePtr : Int) - rb.readPtr) := by
    rw [hcnt]
    exact min_le_left _ _
  clear hcnt
  simp only [U32] at *
  refine ⟨?_, ?_, hq0, ?_, ?_, ?_, ?_⟩
  · rw [hr]; exact hrlt
  · simp only [U32]; omega
  · omega
  · rw [hr]; simp only [U32]; omega
  · simp only [U32]; omega
  · rw [hr, hcap]; omega

/-- `pop` preserves the invariant, adding its returned count to the
popped total. -/
theorem RingInv.popStep {rb : RingBuffer} {p q : Int}
    (h : RingInv rb p q) (dest : List Sample) :
    RingInv (rb.pop dest).1 p (q + (rb.pop dest).2.2) := by
  have hcnt := rb.pop_count dest
  unfold RingBuffer.available_read RingBuffer.availableReadInternal at hcnt
  have hrp := rb.pop_readPtr dest h.readLt
  have hwp := rb.pop_writePtr dest
  have hcap := rb.pop_capacity dest
  have hrlt := h.readLt
  have hwlt := h.writeLt
  have hq0 := h.qNonneg
  have hqp := h.qLeP
  have hre := h.readEq
  have hwe := h.writeEq
  have hd := h.diffLe
  have hc1 : (rb.pop dest).2.2 ≤ (rb.writePtr : Int) - rb.readPtr := by
    rw [hcnt]
    exact min_le_left _ _
  have hc5 : (rb.pop dest).2.2 = (rb.writePtr : Int) - rb.readPtr ∨ 0 ≤ (rb.pop dest).2.2 := by
    rcases le_total ((rb.writePtr : Int) - rb.readPtr) (dest.length : Int) with hab | hab
    · exact Or.inl (by rw [hcnt, min_eq_left hab])
    · refine Or.inr ?_
      rw [hcnt, min_eq_right hab]
      positivity
  clear hcnt
  simp only [U32] at *
  refine ⟨?_, ?_, ?_, ?_, ?_, ?_, ?_⟩
  · simp only [U32]; omega
  · rw [hwp]; exact hwlt
  · omega
  · omega
  · simp only [U32]; omega
  · rw [hwp]; simp only [U32]; omega
  · rw [hwp, hcap]; omega

/-- Capacity is preserved along any operation sequence. -/
theorem runOps_capacity (rb : RingBuffer) (ops : List RingOp) :
    (runOps rb ops).1.capacity = rb.capacity := by
  induction ops generalizing rb with
  | nil => rfl
  | cons op rest ih =>
    cases op with
    | pushOp es =>
      simp only [runOps]
      rw [ih, RingBuffer.push_capacity]
    | popOp n =>
      simp only [runOps]
      rw [ih, RingBuffer.pop_capacity]

/-- The invariant holds after any operation sequence, with the totals
accumulated by the run. -/
theorem runOps_inv {rb : RingBuffer} {p q : Int} (h : RingInv rb p q) (ops : List RingOp) :
    RingInv (runOps rb ops).1 (p + (runOps rb ops).2.1) (q + (runOps rb ops).2.2) := by
  induction ops generalizing rb p q with
  | nil => simpa [runOps] using h
  | cons op rest ih =>
    cases op with
    | pushOp es =>
      have h3 := ih (h.pushStep es)
      simp only [runOps]
      have he : p + ((runOps (rb.push es).1 rest).2.1 + (rb.push es).2)
          = p + (rb.push es).2 + (runOps (rb.push es).1 rest).2.1 := by ring
      rw [he]
      exact h3
    | popOp n =>
      have h3 := ih (h.popStep (List.replicate n 0))
      simp only [runOps]
      have he : q + ((runOps (rb.pop (List.replicate n 0)).1 rest).2.2
            + (rb.pop (List.replicate n 0)).2.2)
          = q + (rb.pop (List.replicate n 0)).2.2
            + (runOps (rb.pop (List.replicate n 0)).1 rest).2.2 := by ring
      rw [he]
      exact h3

/-- C2: for every capacity `c` and every sequence of `push`/`pop`
operations on a ring buffer constructed with that capacity,
`available_read() + available_write() = c` (hence at every point of any
history, that point being the end of a prefix), and `available_read`
never exceeds the number of pushed-but-unpopped elements, so `pop` (which
reads `min(available_read, n)`) never reads more elements than were
pushed ahead of it.  This holds even across `Uint32` cursor wraparound. -/
theorem ringTransport_conservation (c : Nat) (ops : List RingOp) :
    (runOps (RingBuffer.ofStorage (getStorageForCapacity c)) ops).1.available_read +
      (runOps (RingBuffer.ofStorage (getStorageForCapacity c)) ops).1.available_write
        = (c : Int) ∧
    (runOps (RingBuffer.ofStorage (getStorageForCapacity c)) ops).1.available_read
      ≤ (runOps (RingBuffer.ofStorage (getStorageForCapacity c)) ops).2.1
        - (runOps (RingBuffer.ofStorage (getStorageForCapacity c)) ops).2.2 := by
  have hinv := runOps_inv (RingInv.initial (getStorageForCapacity c)) ops
  simp only [zero_add] at hinv
  have hcap := runOps_capacity (RingBuffer.ofStorage (getStorageForCapacity c)) ops
  have hcap0 : (RingBuffer.ofStorage (getStorageForCapacity c)).capacity = c := by
    simp [RingBuffer.ofStorage, getStorageForCapacity]
  constructor
  · unfold RingBuffer.available_read RingBuffer.available_write
      RingBuffer.availableReadInternal RingBuffer.availableWriteInternal
    rw [hcap, hcap0]
    ring
  · have hre := hinv.readEq
    have hwe := hinv.writeEq
    have hq0 := hinv.qNonneg
    have hqp := hinv.qLeP
    unfold RingBuffer.available_read RingBuffer.availableReadInternal
    simp only [U32] at *
    omega

/-- Indexing a `subarray`: element `i` of `subarray(b, e)` is element
`b + i` of the underlying array while `b + i < e`. -/
theorem jsSubarray_getElem (l : List Sample) (b e i : Nat) :
    (jsSubarray l b e)[i]? = if b + i < e then l[b + i]? else none := by
  unfold jsSubarray
  rw [List.getElem?_drop]
  by_cases h : b + i < e
  · rw [if_pos h, List.getElem?_take_of_lt h]
  · rw [if_neg h]
    apply List.getElem?_eq_none
    rw [List.length_take]
    omega

/-- Length of a `subarray` view. -/
theorem jsSubarray_length (l : List Sample) (b e : Nat) :
    (jsSubarray l b e).length = min e l.length - b := by
  unfold jsSubarray
  simp [List.length_take, List.length_drop]

/-- An in-range `set(source, offset)` call preserves the target
length. -/
theorem jsSet_length (t s : List Sample) (off : Nat) (h : off + s.length ≤ t.length) :
    (jsSet t s off).length = t.length := by
  unfold jsSet
  simp only [List.length_append, List.length_take, List.length_drop]
  omega

/-- Indexing after an in-range `set(source, offset)` call: positions
inside `[offset, offset + source.length)` read the source, all others
read the original target. -/
theorem jsSet_getElem (t s : List Sample) (off : Nat) (h : off + s.length ≤ t.length) (j : Nat) :
    (jsSet t s off)[j]? =
      if j < off then t[j]?
      else if j < off + s.length then s[j - off]?
      else t[j]? := by
  unfold jsSet
  have hoff : (t.take off).length = off := List.length_take_of_le (by omega)
  have hts : (t.take off ++ s).length = off + s.length := by
    rw [List.length_append, hoff]
  by_cases h1 : j < off
  · rw [if_pos h1, List.getElem?_append_left (by omega : j < (t.take off ++ s).length),
      List.getElem?_append_left (by omega : j < (t.take off).length),
      List.getElem?_take_of_lt h1]
  · rw [if_neg h1]
    by_cases h2 : j < off + s.length
    · rw [if_pos h2, List.getElem?_append_left (by omega : j < (t.take off ++ s).length),
        List.getElem?_append_right (by omega : (t.take off).length ≤ j), hoff]
    · rw [if_neg h2, List.getElem?_append_right (by omega : (t.take off ++ s).length ≤ j),
        List.getElem?_drop, hts]
      congr 1
      omega

/-- Position arithmetic for a wrapped segment. -/
theorem mod_sub_self_of_lt (x c : Nat) (h1 : c ≤ x) (h2 : x < 2 * c) : x % c = x - c := by
  rw [Nat.mod_eq_sub_mod h1, Nat.mod_eq_of_lt (by omega)]

theorem pushStorageLength (st es : List Sample) (cap wi : Nat) (cnt fp : Int)
    (hlen : st.length = cap) (hwi : wi < cap)
    (hcnt0 : 0 ≤ cnt) (hcntcap : cnt ≤ (cap : Int)) (hcntlen : cnt ≤ (es.length : Int))
    (hfp : fp = min cnt ((cap : Int) - (wi : Int))) :
    (if 0 < cnt - fp then
        jsSet (jsSet st (jsSubarray es 0 fp.toNat) wi) (jsSubarray es fp.toNat cnt.toNat) 0
      else jsSet st (jsSubarray es 0 fp.toNat) wi).length = cap := by
  subst hfp
  have h1 : (jsSubarray es 0 (min cnt ((cap : Int) - (wi : Int))).toNat).length
      = (min cnt ((cap : Int) - (wi : Int))).toNat := by
    rw [jsSubarray_length]; omega
  have h2 : (jsSubarray es (min cnt ((cap : Int) - (wi : Int))).toNat cnt.toNat).length
      = cnt.toNat - (min cnt ((cap : Int) - (wi : Int))).toNat := by
    rw [jsSubarray_length]; omega
  have h3 : (jsSet st (jsSubarray es 0 (min cnt ((cap : Int) - (wi : Int))).toNat) wi).length
      = cap := by
    rw [jsSet_length _ _ _ (by rw [h1, hlen]; omega), hlen]
  by_cases hsp : 0 < cnt - min cnt ((cap : Int) - (wi : Int))
  · rw [if_pos hsp, jsSet_length _ _ _ (by rw [h2, h3]; omega), h3]
  · rw [if_neg hsp, h3]

theorem pushStorageGet (st es : List Sample) (cap wi : Nat) (cnt fp : Int)
    (hlen : st.length = cap) (hwi : wi < cap)
    (hcnt0 : 0 < cnt) (hcntcap : cnt ≤ (cap : Int)) (hcntlen : cnt ≤ (es.length : Int))
    (hfp : fp = min cnt ((cap : Int) - (wi : Int)))
    (i : Nat) (hi : (i : Int) < cnt) :
    (if 0 < cnt - fp then
        jsSet (jsSet st (jsSubarray es 0 fp.toNat) wi) (jsSubarray es fp.toNat cnt.toNat) 0
      else jsSet st (jsSubarray es 0 fp.toNat) wi)[(wi + i) % cap]? = es[i]? := by
  subst hfp
  have h1 : (jsSubarray es 0 (min cnt ((cap : Int) - (wi : Int))).toNat).length
      = (min cnt ((cap : Int) - (wi : Int))).toNat := by
    rw [jsSubarray_length]; omega
  have h2 : (jsSubarray es (min cnt ((cap : Int) - (wi : Int))).toNat cnt.toNat).length
      = cnt.toNat - (min cnt ((cap : Int) - (wi : Int))).toNat := by
    rw [jsSubarray_length]; omega
  have h3 : (jsSet st (jsSubarray es 0 (min cnt ((cap : Int) - (wi : Int))).toNat) wi).length
      = cap := by
    rw [jsSet_length _ _ _ (by rw [h1, hlen]; omega), hlen]
  by_cases hseg : (i : Int) < min cnt ((cap : Int) - (wi : Int))
  · -- first segment: slot wi + i, no wrap
    have hidx : (wi + i) % cap = wi + i := Nat.mod_eq_of_lt (by omega)
    have hfirst :
        (jsSet st (jsSubarray es 0 (min cnt ((cap : Int) - (wi : Int))).toNat) wi)[wi + i]?
          = es[i]? := by
      rw [jsSet_getElem _ _ _ (by rw [h1, hlen]; omega), h1,
        if_neg (by omega), if_pos (by omega), jsSubarray_getElem,
        if_pos (by omega)]
      congr 1
      omega
    by_cases hsp : 0 < cnt - min cnt ((cap : Int) - (wi : Int))
    · -- the wrapped second write does not touch [wi, cap)
      rw [if_pos hsp, hidx,
        jsSet_getElem _ _ _ (by rw [h2, h3]; omega), h2,
        if_neg (by omega), if_neg (by omega)]
      exact hfirst
    · rw [if_neg hsp, hidx]
      exact hfirst
  · -- second segment: wraps to slot i - fp
    have hfpeq : min cnt ((cap : Int) - (wi : Int)) = (cap : Int) - (wi : Int) := by omega
    have hsp : 0 < cnt - min cnt ((cap : Int) - (wi : Int)) := by omega
    have hidx : (wi + i) % cap = i - (cap - wi) := by
      rw [mod_sub_self_of_lt (wi + i) cap (by omega) (by omega)]
      omega
    rw [if_pos hsp, hidx,
      jsSet_getElem _ _ _ (by rw [h2, h3]; omega), h2,
      if_neg (by omega), if_pos (by omega), jsSubarray_getElem, if_pos (by omega)]
    congr 1
    omega

theorem pushStorageUntouched (st es : List Sample) (cap wi : Nat) (cnt fp : Int)
    (hlen : st.length = cap) (hwi : wi < cap)
    (hcnt0 : 0 < cnt) (hcntcap : cnt ≤ (cap : Int)) (hcntlen : cnt ≤ (es.length : Int))
    (hfp : fp = min cnt ((cap : Int) - (wi : Int)))
    (j : Nat) (hj : j < cap)
    (hune : ∀ i : Nat, (i : Int) < cnt → j ≠ (wi + i) % cap) :
    (if 0 < cnt - fp then
        jsSet (jsSet st (jsSubarray es 0 fp.toNat) wi) (jsSubarray es fp.toNat cnt.toNat) 0
      else jsSet st (jsSubarray es 0 fp.toNat) wi)[j]? = st[j]? := by
  subst hfp
  have h1 : (jsSubarray es 0 (min cnt ((cap : Int) - (wi : Int))).toNat).length
      = (min cnt ((cap : Int) - (wi : Int))).toNat := by
    rw [jsSubarray_length]; omega
  have h2 : (jsSubarray es (min cnt ((cap : Int) - (wi : Int))).toNat cnt.toNat).length
      = cnt.toNat - (min cnt ((cap : Int) - (wi : Int))).toNat := by
    rw [jsSubarray_length]; omega
  have h3 : (jsSet st (jsSubarray es 0 (min cnt ((cap : Int) - (wi : Int))).toNat) wi).length
      = cap := by
    rw [jsSet_length _ _ _ (by rw [h1, hlen]; omega), hlen]
  -- j avoids the first segment [wi, wi + fp)
  have hnotfirst : ¬ (wi ≤ j ∧ (j : Int) < (wi : Int) + min cnt ((cap : Int) - (wi : Int))) := by
    rintro ⟨ha, hb⟩
    refine hune (j - wi) (by omega) ?_
    rw [Nat.mod_eq_of_lt (by omega)]
    omega
  have hfirst :
      (jsSet st (jsSubarray es 0 (min cnt ((cap : Int) - (wi : Int))).toNat) wi)[j]?
        = st[j]? := by
    rw [jsSet_getElem _ _ _ (by rw [h1, hlen]; omega), h1]
    by_cases hb : j < wi
    · rw [if_pos hb]
    · rw [if_neg hb, if_neg (by omega)]
  by_cases hsp : 0 < cnt - min cnt ((cap : Int) - (wi : Int))
  · -- j also avoids the wrapped second segment [0, cnt - fp)
    have hfpeq : min cnt ((cap : Int) - (wi : Int)) = (cap : Int) - (wi : Int) := by omega
    have hnotsecond : ¬ ((j : Int) < cnt - min cnt ((cap : Int) - (wi : Int))) := by
      intro hb
      refine hune (cap - wi + j) (by omega) ?_
      rw [mod_sub_self_of_lt (wi + (cap - wi + j)) cap (by omega) (by omega)]
      omega
    rw [if_pos hsp, jsSet_getElem _ _ _ (by rw [h2, h3]; omega), h2,
      if_neg (by omega), if_neg (by omega)]
    exact hfirst
  · rw [if_neg hsp]
    exact hfirst

/-- C7: `push` with a source of `n` elements writes exactly
`min(available_write, n)` elements and returns that count, advances the
write cursor (a `Uint32` cell) by the count written, writes element `i`
of the source to ring slot `(writeIndex + i) % capacity` — the
first/second segment split around the capacity boundary — and leaves
every other slot untouched, so excess source elements are not
written. -/
theorem ringTransport_push_functional (rb : RingBuffer) (es : List Sample)
    (hlen : rb.storageView.length = rb.capacity)
    (hcap : 0 < rb.capacity)
    (hw32 : rb.writePtr < U32)
    (hd0 : 0 ≤ rb.available_read)
    (hdc : rb.available_read ≤ (rb.capacity : Int)) :
    (rb.push es).2 = min rb.available_write (es.length : Int) ∧
    ((rb.push es).1.writePtr : Int) = ((rb.writePtr : Int) + (rb.push es).2) % (U32 : Int) ∧
    (rb.push es).1.storageView.length = rb.capacity ∧
    (∀ i : Nat, (i : Int) < (rb.push es).2 →
      (rb.push es).1.storageView[(rb.writePtr % rb.capacity + i) % rb.capacity]? = es[i]?) ∧
    (∀ j : Nat, j < rb.capacity →
      (∀ i : Nat, (i : Int) < (rb.push es).2 → j ≠ (rb.writePtr % rb.capacity + i) % rb.capacity) →
      (rb.push es).1.storageView[j]? = rb.storageView[j]?) := by
  refine ⟨rb.push_count es, rb.push_writePtr es hw32, ?_, ?_, ?_⟩
  · unfold RingBuffer.available_read RingBuffer.availableReadInternal at hd0 hdc
    obtain ⟨cap, r, w, st⟩ := rb
    simp only at hd0 hdc hlen hcap
    by_cases h0 : min ((cap : Int) - ((w : Int) - (r : Int))) (es.length : Int) = 0
    · simp only [RingBuffer.push, RingBuffer.availableWriteInternal, h0]
      simpa using hlen
    · simp only [RingBuffer.push, RingBuffer.availableWriteInternal]
      rw [if_neg h0]
      exact pushStorageLength st es cap (w % cap) _ _ hlen (Nat.mod_lt _ hcap)
        (by omega) (by omega) (by omega) rfl
  · unfold RingBuffer.available_read RingBuffer.availableReadInternal at hd0 hdc
    obtain ⟨cap, r, w, st⟩ := rb
    simp only at hd0 hdc hlen hcap
    by_cases h0 : min ((cap : Int) - ((w : Int) - (r : Int))) (es.length : Int) = 0
    · intro i hi
      simp only [RingBuffer.push, RingBuffer.availableWriteInternal, h0] at hi
      simp at hi
      omega
    · simp only [RingBuffer.push, RingBuffer.availableWriteInternal]
      rw [if_neg h0]
      intro i hi
      exact pushStorageGet st es cap (w % cap) _ _ hlen (Nat.mod_lt _ hcap)
        (by omega) (by omega) (by omega) rfl i hi
  · unfold RingBuffer.available_read RingBuffer.availableReadInternal at hd0 hdc
    obtain ⟨cap, r, w, st⟩ := rb
    simp only at hd0 hdc hlen hcap
    by_cases h0 : min ((cap : Int) - ((w : Int) - (r : Int))) (es.length : Int) = 0
    · intro j hj hune
      simp only [RingBuffer.push, RingBuffer.availableWriteInternal, h0]
      simp
    · simp only [RingBuffer.push, RingBuffer.availableWriteInternal]
      rw [if_neg h0]
      intro j hj hune
      exact pushStorageUntouched st es cap (w % cap) _ _ hlen (Nat.mod_lt _ hcap)
        (by omega) (by omega) (by omega) rfl j hj hune

/-- C7 witness: a wrapped push on a capacity-3 buffer with cursors at 2.
-/
theorem ringTransport_push_functional_witness :
    ((RingBuffer.mk 3 2 2 [10, 20, 30]).push [7, 8, 9]).2
        = min (RingBuffer.mk 3 2 2 [10, 20, 30]).available_write ((3 : Nat) : Int) ∧
    (((RingBuffer.mk 3 2 2 [10, 20, 30]).push [7, 8, 9]).1.writePtr : Int)
        = (((RingBuffer.mk 3 2 2 [10, 20, 30]).writePtr : Int)
            + ((RingBuffer.mk 3 2 2 [10, 20, 30]).push [7, 8, 9]).2) % (U32 : Int) ∧
    ((RingBuffer.mk 3 2 2 [10, 20, 30]).push [7, 8, 9]).1.storageView.length = 3 ∧
    (∀ i : Nat, (i : Int) < ((RingBuffer.mk 3 2 2 [10, 20, 30]).push [7, 8, 9]).2 →
      ((RingBuffer.mk 3 2 2 [10, 20, 30]).push [7, 8, 9]).1.storageView[(2 % 3 + i) % 3]?
        = [(7 : Int), 8, 9][i]?) ∧
    (∀ j : Nat, j < 3 →
      (∀ i : Nat, (i : Int) < ((RingBuffer.mk 3 2 2 [10, 20, 30]).push [7, 8, 9]).2 →
        j ≠ (2 % 3 + i) % 3) →
      ((RingBuffer.mk 3 2 2 [10, 20, 30]).push [7, 8, 9]).1.storageView[j]?
        = [(10 : Int), 20, 30][j]?) := by
  have h := ringTransport_push_functional (RingBuffer.mk 3 2 2 [10, 20, 30]) [7, 8, 9]
    (by decide) (by decide) (by decide) (by decide) (by decide)
  exact h

/-- Segment-arithmetic helpers for the `pop` data path. -/
theorem popDestLength (st dest : List Sample) (cap ri : Nat) (cnt fp : Int)
    (hlen : st.length = cap) (hri : ri < cap)
    (_hcnt0 : 0 ≤ cnt) (hcntcap : cnt ≤ (cap : Int)) (hcntlen : cnt ≤ (dest.length : Int))
    (hfp : fp = min cnt ((cap : Int) - (ri : Int))) :
    (if 0 < cnt - fp then
        jsSet (jsSet dest (jsSubarray st ri (ri + fp.toNat)) 0)
          (jsSubarray st 0 (cnt - fp).toNat) fp.toNat
      else jsSet dest (jsSubarray st ri (ri + fp.toNat)) 0).length = dest.length := by
  subst hfp
  have h1 : (jsSubarray st ri (ri + (min cnt ((cap : Int) - (ri : Int))).toNat)).length
      = (min cnt ((cap : Int) - (ri : Int))).toNat := by
    rw [jsSubarray_length]; omega
  have h3 : (jsSet dest (jsSubarray st ri (ri + (min cnt ((cap : Int) - (ri : Int))).toNat)) 0).length
      = dest.length := by
    rw [jsSet_length _ _ _ (by rw [h1]; omega)]
  have h2 : (jsSubarray st 0 (cnt - min cnt ((cap : Int) - (ri : Int))).toNat).length
      = (cnt - min cnt ((cap : Int) - (ri : Int))).toNat := by
    rw [jsSubarray_length]; omega
  by_cases hsp : 0 < cnt - min cnt ((cap : Int) - (ri : Int))
  · rw [if_pos hsp, jsSet_length _ _ _ (by rw [h2, h3]; omega), h3]
  · rw [if_neg hsp, h3]

theorem popDestGet (st dest : List Sample) (cap ri : Nat) (cnt fp : Int)
    (hlen : st.length = cap) (hri : ri < cap)
    (hcnt0 : 0 < cnt) (hcntcap : cnt ≤ (cap : Int)) (hcntlen : cnt ≤ (dest.length : Int))
    (hfp : fp = min cnt ((cap : Int) - (ri : Int)))
    (i : Nat) (hi : (i : Int) < cnt) :
    (if 0 < cnt - fp then
        jsSet (jsSet dest (jsSubarray st ri (ri + fp.toNat)) 0)
          (jsSubarray st 0 (cnt - fp).toNat) fp.toNat
      else jsSet dest (jsSubarray st ri (ri + fp.toNat)) 0)[i]?
      = st[(ri + i) % cap]? := by
  subst hfp
  have h1 : (jsSubarray st ri (ri + (min cnt ((cap : Int) - (ri : Int))).toNat)).length
      = (min cnt ((cap : Int) - (ri : Int))).toNat := by
    rw [jsSubarray_length]; omega
  have h3 : (jsSet dest (jsSubarray st ri (ri + (min cnt ((cap : Int) - (ri : Int))).toNat)) 0).length
      = dest.length := by
    rw [jsSet_length _ _ _ (by rw [h1]; omega)]
  have h2 : (jsSubarray st 0 (cnt - min cnt ((cap : Int) - (ri : Int))).toNat).length
      = (cnt - min cnt ((cap : Int) - (ri : Int))).toNat := by
    rw [jsSubarray_length]; omega
  by_cases hseg : (i : Int) < min cnt ((cap : Int) - (ri : Int))
  · have hidx : (ri + i) % cap = ri + i := Nat.mod_eq_of_lt (by omega)
    have hfirst :
        (jsSet dest (jsSubarray st ri (ri + (min cnt ((cap : Int) - (ri : Int))).toNat)) 0)[i]?
          = st[ri + i]? := by
      rw [jsSet_getElem _ _ _ (by rw [h1]; omega), h1,
        if_neg (by omega), if_pos (by omega), jsSubarray_getElem, if_pos (by omega)]
      simp
    by_cases hsp : 0 < cnt - min cnt ((cap : Int) - (ri : Int))
    · rw [if_pos hsp, hidx,
        jsSet_getElem _ _ _ (by rw [h2, h3]; omega), h2,
        if_pos (by omega)]
      exact hfirst
    · rw [if_neg hsp, hidx]
      exact hfirst
  · have hfpeq : min cnt ((cap : Int) - (ri : Int)) = (cap : Int) - (ri : Int) := by omega
    have hsp : 0 < cnt - min cnt ((cap : Int) - (ri : Int)) := by omega
    have hidx : (ri + i) % cap = i - (cap - ri) := by
      rw [mod_sub_self_of_lt (ri + i) cap (by omega) (by omega)]
      omega
    rw [if_pos hsp, hidx,
      jsSet_getElem _ _ _ (by rw [h2, h3]; omega), h2,
      if_neg (by omega), if_pos (by omega), jsSubarray_getElem, if_pos (by omega)]
    congr 1
    omega

theorem popDestUntouched (st dest : List Sample) (cap ri : Nat) (cnt fp : Int)
    (hlen : st.length = cap) (hri : ri < cap)
    (hcnt0 : 0 < cnt) (hcntcap : cnt ≤ (cap : Int)) (hcntlen : cnt ≤ (dest.length : Int))
    (hfp : fp = min cnt ((cap : Int) - (ri : Int)))
    (i : Nat) (hi : ¬ (i : Int) < cnt) :
    (if 0 < cnt - fp then
        jsSet (jsSet dest (jsSubarray st ri (ri + fp.toNat)) 0)
          (jsSubarray st 0 (cnt - fp).toNat) fp.toNat
      else jsSet dest (jsSubarray st ri (ri + fp.toNat)) 0)[i]?
      = dest[i]? := by
  subst hfp
  have h1 : (jsSubarray st ri (ri + (min cnt ((cap : Int) - (ri : Int))).toNat)).length
      = (min cnt ((cap : Int) - (ri : Int))).toNat := by
    rw [jsSubarray_length]; omega
  have h3 : (jsSet dest (jsSubarray st ri (ri + (min cnt ((cap : Int) - (ri : Int))).toNat)) 0).length
      = dest.length := by
    rw [jsSet_length _ _ _ (by rw [h1]; omega)]
  have h2 : (jsSubarray st 0 (cnt - min cnt ((cap : Int) - (ri : Int))).toNat).length
      = (cnt - min cnt ((cap : Int) - (ri : Int))).toNat := by
    rw [jsSubarray_length]; omega
  have hfirst :
      (jsSet dest (jsSubarray st ri (ri + (min cnt ((cap : Int) - (ri : Int))).toNat)) 0)[i]?
        = dest[i]? := by
    rw [jsSet_getElem _ _ _ (by rw [h1]; omega), h1,
      if_neg (by omega), if_neg (by omega)]
  by_cases hsp : 0 < cnt - min cnt ((cap : Int) - (ri : Int))
  · rw [if_pos hsp,
      jsSet_getElem _ _ _ (by rw [h2, h3]; omega), h2,
      if_neg (by omega), if_neg (by omega)]
    exact hfirst
  · rw [if_neg hsp]
    exact hfirst

/-- C3 (amended): `pop` into a destination of length `n` returns
`min(available_read, n)`, advances the read cursor by that count, fills
the first `min(available_read, n)` destination elements from the ring in
FIFO order (wrapping at the capacity boundary) and leaves every
remaining destination element UNCHANGED — it does not zero-fill the
shortfall (the zero-filling of missing frames happens in the audio
worklet's `process` callback on its output channels, not in `pop`). -/
theorem ringTransport_pop_functional (rb : RingBuffer) (dest : List Sample)
    (hlen : rb.storageView.length = rb.capacity)
    (hcap : 0 < rb.capacity)
    (hr32 : rb.readPtr < U32)
    (hd0 : 0 ≤ rb.available_read)
    (hdc : rb.available_read ≤ (rb.capacity : Int)) :
    (rb.pop dest).2.2 = min rb.available_read (dest.length : Int) ∧
    ((rb.pop dest).1.readPtr : Int) = ((rb.readPtr : Int) + (rb.pop dest).2.2) % (U32 : Int) ∧
    ((rb.pop dest).2.1).length = dest.length ∧
    (∀ i : Nat, (i : Int) < (rb.pop dest).2.2 →
      (rb.pop dest).2.1[i]? = rb.storageView[(rb.readPtr % rb.capacity + i) % rb.capacity]?) ∧
    (∀ i : Nat, ¬ (i : Int) < (rb.pop dest).2.2 →
      (rb.pop dest).2.1[i]? = dest[i]?) := by
  refine ⟨rb.pop_count dest, rb.pop_readPtr dest hr32, ?_, ?_, ?_⟩
  · unfold RingBuffer.available_read RingBuffer.availableReadInternal at hd0 hdc
    obtain ⟨cap, r, w, st⟩ := rb
    simp only at hd0 hdc hlen hcap
    by_cases h0 : min ((w : Int) - (r : Int)) (dest.length : Int) = 0
    · simp only [RingBuffer.pop, RingBuffer.availableReadInternal, h0]
      simp
    · simp only [RingBuffer.pop, RingBuffer.availableReadInternal]
      rw [if_neg h0]
      exact popDestLength st dest cap (r % cap) _ _ hlen (Nat.mod_lt _ hcap)
        (by omega) (by omega) (by omega) rfl
  · unfold RingBuffer.available_read RingBuffer.availableReadInternal at hd0 hdc
    obtain ⟨cap, r, w, st⟩ := rb
    simp only at hd0 hdc hlen hcap
    by_cases h0 : min ((w : Int) - (r : Int)) (dest.length : Int) = 0
    · intro i hi
      simp only [RingBuffer.pop, RingBuffer.availableReadInternal, h0] at hi
      simp at hi
      omega
    · simp only [RingBuffer.pop, RingBuffer.availableReadInternal]
      rw [if_neg h0]
      intro i hi
      exact popDestGet st dest cap (r % cap) _ _ hlen (Nat.mod_lt _ hcap)
        (by omega) (by omega) (by omega) rfl i hi
  · unfold RingBuffer.available_read RingBuffer.availableReadInternal at hd0 hdc
    obtain ⟨cap, r, w, st⟩ := rb
    simp only at hd0 hdc hlen hcap
    by_cases h0 : min ((w : Int) - (r : Int)) (dest.length : Int) = 0
    · intro i hi
      simp only [RingBuffer.pop, RingBuffer.availableReadInternal, h0]
      simp
    · simp only [RingBuffer.pop, RingBuffer.availableReadInternal]
      rw [if_neg h0]
      intro i hi
      exact popDestUntouched st dest cap (r % cap) _ _ hlen (Nat.mod_lt _ hcap)
        (by omega) (by omega) (by omega) rfl i hi

/-- C3 witness: a wrapped pop on a capacity-3 buffer with `read = 2`,
`write = 5`. -/
theorem ringTransport_pop_functional_witness :
    ((RingBuffer.mk 3 2 5 [10, 20, 30]).pop [7, 8, 9]).2.2
        = min (RingBuffer.mk 3 2 5 [10, 20, 30]).available_read ((3 : Nat) : Int) ∧
    (((RingBuffer.mk 3 2 5 [10, 20, 30]).pop [7, 8, 9]).1.readPtr : Int)
        = (((RingBuffer.mk 3 2 5 [10, 20, 30]).readPtr : Int)
            + ((RingBuffer.mk 3 2 5 [10, 20, 30]).pop [7, 8, 9]).2.2) % (U32 : Int) ∧
    (((RingBuffer.mk 3 2 5 [10, 20, 30]).pop [7, 8, 9]).2.1).length = 3 ∧
    (∀ i : Nat, (i : Int) < ((RingBuffer.mk 3 2 5 [10, 20, 30]).pop [7, 8, 9]).2.2 →
      ((RingBuffer.mk 3 2 5 [10, 20, 30]).pop [7, 8, 9]).2.1[i]?
        = [(10 : Int), 20, 30][(2 % 3 + i) % 3]?) ∧
    (∀ i : Nat, ¬ (i : Int) < ((RingBuffer.mk 3 2 5 [10, 20, 30]).pop [7, 8, 9]).2.2 →
      ((RingBuffer.mk 3 2 5 [10, 20, 30]).pop [7, 8, 9]).2.1[i]? = [(7 : Int), 8, 9][i]?) := by
  have h := ringTransport_pop_functional (RingBuffer.mk 3 2 5 [10, 20, 30]) [7, 8, 9]
    (by decide) (by decide) (by decide) (by decide) (by decide)
  exact h

/-- C3 counterexample: on a capacity-2 ring holding the single sample 5,
popping into the two-element destination `[7, 9]` yields `[5, 9]` — the
shortfall slot keeps its stale value 9 instead of the silence 0 the
claim's zero-fill behaviour would produce (`[5, 0]`). -/
theorem ringTransport_pop_no_zero_fill :
    ((((RingBuffer.ofStorage (getStorageForCapacity 2)).push [5]).1.pop [7, 9]).2.1 = [5, 9])
      ∧ ¬ ((((RingBuffer.ofStorage (getStorageForCapacity 2)).push [5]).1.pop [7, 9]).2.1
            = [5, 0]) := by
  constructor
  · decide
  · decide

/-- Invariant of the frame-scan loop: from an accumulator `(bi, bd)`,
the scan returns a pair whose delta is the minimum of `bd` and all
remaining deltas, kept at the earliest strictly-improving index. -/
theorem bestLoop_acc_spec (target : Rat) (l : List Frame) :
    ∀ (i0 bi : Nat) (bd : Rat),
      ∃ m dm, bestLoop target l i0 (some (bi, bd)) = some (m, dm) ∧
        dm ≤ bd ∧
        (∀ k, ∀ hk : k < l.length, dm ≤ |target - (l.get ⟨k, hk⟩).timestamp|) ∧
        ((m = bi ∧ dm = bd) ∨
          ∃ k, ∃ hk : k < l.length, m = i0 + k
            ∧ dm = |target - (l.get ⟨k, hk⟩).timestamp|
            ∧ dm < bd
            ∧ ∀ j, ∀ hj : j < k,
                dm < |target - (l.get ⟨j, lt_trans hj hk⟩).timestamp|) := by
  induction l with
  | nil =>
    intro i0 bi bd
    exact ⟨bi, bd, rfl, le_refl _, by simp, Or.inl ⟨rfl, rfl⟩⟩
  | cons f rest ih =>
    intro i0 bi bd
    by_cases hlt : |target - f.timestamp| < bd
    · obtain ⟨m, dm, heq, hle, hall, hdisj⟩ := ih (i0 + 1) i0 |target - f.timestamp|
      refine ⟨m, dm, ?_, ?_, ?_, ?_⟩
      · simp only [bestLoop]
        rw [if_pos hlt]
        exact heq
      · exact le_trans hle (le_of_lt hlt)
      · intro k hk
        cases k with
        | zero => exact hle
        | succ k2 => exact hall k2 (by simpa using hk)
      · rcases hdisj with ⟨hm, hdm⟩ | ⟨k, hk, hm, hdm, hdb, hmin⟩
        · refine Or.inr ⟨0, by simp, by omega, hdm, by rw [hdm]; exact hlt, ?_⟩
          intro j hj
          omega
        · refine Or.inr ⟨k + 1, by simpa using hk, by omega, hdm, lt_trans hdb hlt, ?_⟩
          intro j hj
          cases j with
          | zero => exact hdb
          | succ j2 => exact hmin j2 (by omega)
    · obtain ⟨m, dm, heq, hle, hall, hdisj⟩ := ih (i0 + 1) bi bd
      refine ⟨m, dm, ?_, hle, ?_, ?_⟩
      · simp only [bestLoop]
        rw [if_neg hlt]
        exact heq
      · intro k hk
        cases k with
        | zero => exact le_trans hle (le_of_not_lt hlt)
        | succ k2 => exact hall k2 (by simpa using hk)
      · rcases hdisj with ⟨hm, hdm⟩ | ⟨k, hk, hm, hdm, hdb, hmin⟩
        · exact Or.inl ⟨hm, hdm⟩
        · refine Or.inr ⟨k + 1, by simpa using hk, by omega, hdm, hdb, ?_⟩
          intro j hj
          cases j with
          | zero => exact lt_of_lt_of_le hdb (le_of_not_lt hlt)
          | succ j2 => exact hmin j2 (by omega)

/-- The full scan of a non-empty buffer returns an index whose delta is
a global minimum, with ties broken by the earliest index. -/
theorem bestLoop_spec (target : Rat) (f0 : Frame) (rest : List Frame) :
    ∃ m dm, bestLoop target (f0 :: rest) 0 none = some (m, dm) ∧
      ∃ hm : m < (f0 :: rest).length,
        dm = |target - ((f0 :: rest).get ⟨m, hm⟩).timestamp| ∧
        (∀ k, ∀ hk : k < (f0 :: rest).length,
          dm ≤ |target - ((f0 :: rest).get ⟨k, hk⟩).timestamp|) ∧
        (∀ j, ∀ hj : j < m,
          dm < |target - ((f0 :: rest).get ⟨j, lt_trans hj hm⟩).timestamp|) := by
  obtain ⟨m, dm, heq, hle, hall, hdisj⟩ :=
    bestLoop_acc_spec target rest 1 0 |target - f0.timestamp|
  have heq0 : bestLoop target (f0 :: rest) 0 none = some (m, dm) := by
    simp only [bestLoop]
    exact heq
  rcases hdisj with ⟨hm, hdm⟩ | ⟨k, hk, hm, hdm, hdb, hmin⟩
  · subst hm
    refine ⟨0, dm, heq0, by simp, hdm, ?_, ?_⟩
    · intro k hk
      cases k with
      | zero => exact le_of_eq hdm
      | succ k2 => exact hall k2 (by simpa using hk)
    · intro j hj
      omega
  · subst hm
    have heq1 : bestLoop target (f0 :: rest) 0 none = some (k + 1, dm) := by
      rw [Nat.add_comm k 1]
      exact heq0
    refine ⟨k + 1, dm, heq1, by simpa using hk, hdm, ?_, ?_⟩
    · intro k2 hk2
      cases k2 with
      | zero => exact le_of_lt hdb
      | succ k3 => exact hall k3 (by simpa using hk2)
    · intro j hj
      cases j with
      | zero => exact hdb
      | succ j2 => exact hmin j2 (by omega)

/-- C1 (amended, media-worker selection): on a non-empty buffer the
`renderVideo` selection returns the entry minimizing
`|timestamp - target|` (ties broken by the earliest index), closes
exactly the entries at strictly smaller indices, and removes the
selected entry from the buffer (the remaining buffer is the suffix after
it); on an empty buffer it returns no frame and changes nothing. -/
theorem frameSelect_renderVideo (buf : List Frame) (target : Rat) :
    (buf = [] → renderVideoSelect buf target = ⟨none, buf, []⟩) ∧
    (buf ≠ [] → ∃ m, ∃ hm : m < buf.length,
      renderVideoSelect buf target
        = ⟨some (buf.get ⟨m, hm⟩), buf.drop (m + 1), buf.take m⟩ ∧
      (∀ k, ∀ hk : k < buf.length,
        |target - (buf.get ⟨m, hm⟩).timestamp| ≤ |target - (buf.get ⟨k, hk⟩).timestamp|) ∧
      (∀ j, ∀ hj : j < m,
        |target - (buf.get ⟨m, hm⟩).timestamp|
          < |target - (buf.get ⟨j, lt_trans hj hm⟩).timestamp|)) := by
  constructor
  · intro h
    subst h
    rfl
  · intro hne
    match buf, hne with
    | f0 :: rest, _ =>
      obtain ⟨m, dm, heq, hm, hdm, hall, hmin⟩ := bestLoop_spec target f0 rest
      refine ⟨m, hm, ?_, ?_, ?_⟩
      · simp only [renderVideoSelect, heq, List.head?_drop]
        rw [List.getElem?_eq_getElem hm]
        rfl
      · intro k hk
        rw [← hdm]
        exact hall k hk
      · intro j hj
        rw [← hdm]
        exact hmin j hj

/-- C1 counterexample: the worker-side `VideoRendererWorker.chooseFrame`
(the other frame-selection operation the claim covers) does NOT remove
the selected entry: selecting at target 10 from the two-frame buffer
returns the frame with timestamp 10 while that same frame is still the
head of the post-call buffer, so the caller does not become its sole
owner. -/
theorem chooseFrame_keeps_selected :
    (chooseFrame [⟨0, 0⟩, ⟨1, 10⟩] 10).1 = some ⟨1, 10⟩ ∧
    (chooseFrame [⟨0, 0⟩, ⟨1, 10⟩] 10).2.1 = [⟨1, 10⟩] := by
  have h1 : |(10 : Rat) - (0 : Rat)| = 10 := by norm_num
  have h2 : |(10 : Rat) - (10 : Rat)| = 0 := by norm_num
  constructor
  · simp [chooseFrame, chooseFrameScan, h1, h2]
  · simp [chooseFrame, chooseFrameScan, h1, h2]

/-- C1 witness: the amended selection property evaluated on a concrete
two-frame buffer with target 4 (selects index 0). -/
theorem frameSelect_renderVideo_witness :
    ∃ m, ∃ hm : m < ([⟨0, 0⟩, ⟨1, 10⟩] : List Frame).length,
      renderVideoSelect [⟨0, 0⟩, ⟨1, 10⟩] 4
        = ⟨some (([⟨0, 0⟩, ⟨1, 10⟩] : List Frame).get ⟨m, hm⟩),
            ([⟨0, 0⟩, ⟨1, 10⟩] : List Frame).drop (m + 1),
            ([⟨0, 0⟩, ⟨1, 10⟩] : List Frame).take m⟩ ∧
      (∀ k, ∀ hk : k < ([⟨0, 0⟩, ⟨1, 10⟩] : List Frame).length,
        |4 - (([⟨0, 0⟩, ⟨1, 10⟩] : List Frame).get ⟨m, hm⟩).timestamp|
          ≤ |4 - (([⟨0, 0⟩, ⟨1, 10⟩] : List Frame).get ⟨k, hk⟩).timestamp|) ∧
      (∀ j, ∀ hj : j < m,
        |4 - (([⟨0, 0⟩, ⟨1, 10⟩] : List Frame).get ⟨m, hm⟩).timestamp|
          < |4 - (([⟨0, 0⟩, ⟨1, 10⟩] : List Frame).get ⟨j, lt_trans hj hm⟩).timestamp|) :=
  (frameSelect_renderVideo [⟨0, 0⟩, ⟨1, 10⟩] 4).2 (by decide)

/-- C4 (amended): the playback clock returns
`anchor.mediaTime + (now - anchor.wallClock)` (wall-clock milliseconds
converted to seconds) with NO clamping; the worker-side microsecond
clock computes exactly the same affine anchor formula scaled to
microseconds, and the `currentTime` getter returns the live formula
while playing. -/
theorem playbackClock_formula (m w now stored : Rat) :
    getCurrentPlaybackTime m w now = m + (now - w) / 1000 ∧
    getMediaTimeMicroseconds m w now = 1000000 * getCurrentPlaybackTime m w now ∧
    currentTime PlaybackState.playing stored m w now = getCurrentPlaybackTime m w now := by
  refine ⟨rfl, ?_, rfl⟩
  unfold getMediaTimeMicroseconds getCurrentPlaybackTime
  ring

/-- C4 counterexample: with anchor media time 9 s taken at wall-clock
0 ms, duration 10 s, and current wall-clock 2000 ms, the code's clock
returns 11, strictly beyond the duration; the spec's clamped value is
10, so the code does not clamp to `[0, duration]`. -/
theorem playbackClock_not_clamped :
    getCurrentPlaybackTime 9 0 2000 = 11 ∧
    specClampToDuration 10 (getCurrentPlaybackTime 9 0 2000) = 10 ∧
    ¬ getCurrentPlaybackTime 9 0 2000
        = specClampToDuration 10 (getCurrentPlaybackTime 9 0 2000) := by
  refine ⟨by norm_num [getCurrentPlaybackTime], ?_, ?_⟩ <;>
    norm_num [getCurrentPlaybackTime, specClampToDuration]

/-- In a duplicate-free buffer the selected entry does not occur among
the stale entries before it. -/
theorem selected_not_mem_take {l : List Frame} (hnd : l.Nodup) (m : Nat) (hm : m < l.length) :
    l.get ⟨m, hm⟩ ∉ l.take m := by
  intro hmem
  rw [List.mem_take_iff_getElem] at hmem
  obtain ⟨i, hi, he⟩ := hmem
  have hieq : (⟨i, by omega⟩ : Fin l.length) = ⟨m, hm⟩ := hnd.get_inj_iff.mp he
  have : i = m := by
    cases hieq
    rfl
  omega

/-- C5 (amended): when the installed adapter throws on its frame, the
render tick releases the input frame exactly once, emits a single
non-fatal `error` event whose code is `RENDER_ERROR` (not
`ADAPTER_ERROR`), skips the draw, and leaves the session state exactly
as it was — in particular it never becomes `error`. -/
theorem adapterThrow_tick (pending : List Frame) (state : PlaybackState)
    (process : Frame → Except Unit Frame) (target : Rat)
    (hne : pending ≠ []) (hnd : pending.Nodup)
    (hthrow : ∀ f, process f = Except.error ()) :
    ∃ best, (renderVideoSelect pending target).selected = some best ∧
      (renderFrame pending state (some process) target).released.count best = 1 ∧
      (renderFrame pending state (some process) target).events
        = [PlayerEvent.errorEvent (some VegaErrorCode.RENDER_ERROR)] ∧
      (renderFrame pending state (some process) target).drawn = none ∧
      (renderFrame pending state (some process) target).state = state := by
  obtain ⟨m, hm, hsel, hall, hmin⟩ := (frameSelect_renderVideo pending target).2 hne
  have hlen0 : ¬ pending.length = 0 := by
    cases pending with
    | nil => exact absurd rfl hne
    | cons f r => simp
  have hrf : renderFrame pending state (some process) target
      = ⟨(renderVideoSelect pending target).buffer, state,
          (renderVideoSelect pending target).released ++ [pending.get ⟨m, hm⟩],
          [PlayerEvent.errorEvent (some VegaErrorCode.RENDER_ERROR)], none⟩ := by
    unfold renderFrame
    rw [if_neg hlen0, hsel]
    simp only [hthrow]
  refine ⟨pending.get ⟨m, hm⟩, by rw [hsel], ?_, by rw [hrf], by rw [hrf], by rw [hrf]⟩
  rw [hrf]
  simp only [List.count_append, hsel]
  have hnotmem : pending.get ⟨m, hm⟩ ∉ List.take m pending :=
    selected_not_mem_take hnd m hm
  rw [List.count_eq_zero_of_not_mem hnotmem]
  simp

/-- C9 (amended): when the adapter returns the same frame reference, the
pipeline performs no release of that frame at all (it goes to the
renderer); when the adapter returns a different frame, the pipeline
ITSELF closes the original input exactly once
(`if (processed !== bestFrame) bestFrame.close()`), matching the
documented adapter contract that the caller closes the original if the
adapter did not. -/
theorem adapterReturn_release (pending : List Frame) (state : PlaybackState)
    (process : Frame → Except Unit Frame) (target : Rat)
    (hne : pending ≠ []) (hnd : pending.Nodup) :
    ∃ best, (renderVideoSelect pending target).selected = some best ∧
      (process best = Except.ok best →
        (renderFrame pending state (some process) target).released.count best = 0 ∧
        (renderFrame pending state (some process) target).drawn = some best) ∧
      (∀ g, process best = Except.ok g → g ≠ best →
        (renderFrame pending state (some process) target).released.count best = 1 ∧
        (renderFrame pending state (some process) target).drawn = some g) := by
  obtain ⟨m, hm, hsel, hall, hmin⟩ := (frameSelect_renderVideo pending target).2 hne
  have hlen0 : ¬ pending.length = 0 := by
    cases pending with
    | nil => exact absurd rfl hne
    | cons f r => simp
  have hnotmem : pending.get ⟨m, hm⟩ ∉ List.take m pending :=
    selected_not_mem_take hnd m hm
  refine ⟨pending.get ⟨m, hm⟩, by rw [hsel], ?_, ?_⟩
  · intro hsame
    have hrf : renderFrame pending state (some process) target
        = ⟨(renderVideoSelect pending target).buffer, state,
            (renderVideoSelect pending target).released, [], some (pending.get ⟨m, hm⟩)⟩ := by
      unfold renderFrame
      rw [if_neg hlen0, hsel]
      simp only [hsame]
      simp
    rw [hrf]
    refine ⟨?_, rfl⟩
    simp only [hsel]
    exact List.count_eq_zero_of_not_mem hnotmem
  · intro g hg hgne
    have hrf : renderFrame pending state (some process) target
        = ⟨(renderVideoSelect pending target).buffer, state,
            (renderVideoSelect pending target).released ++ [pending.get ⟨m, hm⟩], [], some g⟩ := by
      unfold renderFrame
      rw [if_neg hlen0, hsel]
      simp only [hg]
      rw [if_neg hgne]
    rw [hrf]
    refine ⟨?_, rfl⟩
    simp only [List.count_append, hsel]
    rw [List.count_eq_zero_of_not_mem hnotmem]
    simp

/-- C5 counterexample: a throwing adapter on a one-frame buffer makes
the tick emit an `error` event with code `RENDER_ERROR`; no
`ADAPTER_ERROR` event is emitted, contrary to the claim. -/
theorem adapterThrow_emits_renderError :
    (renderFrame [⟨0, 0⟩] PlaybackState.playing (some fun _ => Except.error ()) 0).events
        = [PlayerEvent.errorEvent (some VegaErrorCode.RENDER_ERROR)] ∧
    PlayerEvent.errorEvent (some VegaErrorCode.ADAPTER_ERROR)
        ∉ (renderFrame [⟨0, 0⟩] PlaybackState.playing (some fun _ => Except.error ()) 0).events := by
  have hrf : renderFrame [⟨0, 0⟩] PlaybackState.playing (some fun _ => Except.error ()) 0
      = ⟨[], PlaybackState.playing, [⟨0, 0⟩],
          [PlayerEvent.errorEvent (some VegaErrorCode.RENDER_ERROR)], none⟩ := by
    simp [renderFrame, renderVideoSelect, bestLoop]
  rw [hrf]
  constructor
  · rfl
  · simp

/-- C9 counterexample: an adapter returning a NEW frame (id 1) for the
input frame (id 0) makes the pipeline itself release the original input
frame — the claim says the pipeline does not release it. -/
theorem adapterDifferentFrame_released :
    (renderFrame [⟨0, 0⟩] PlaybackState.playing (some fun _ => Except.ok ⟨1, 0⟩) 0).released
        = [⟨0, 0⟩] ∧
    (⟨0, 0⟩ : Frame)
        ∈ (renderFrame [⟨0, 0⟩] PlaybackState.playing (some fun _ => Except.ok ⟨1, 0⟩) 0).released := by
  have hrf : renderFrame [⟨0, 0⟩] PlaybackState.playing (some fun _ => Except.ok ⟨1, 0⟩) 0
      = ⟨[], PlaybackState.playing, [⟨0, 0⟩], [], some ⟨1, 0⟩⟩ := by
    simp [renderFrame, renderVideoSelect, bestLoop]
  rw [hrf]
  constructor
  · rfl
  · simp

/-- C5 witness: the amended adapter-throw property at a concrete
one-frame buffer. -/
theorem adapterThrow_tick_witness :
    ∃ best, (renderVideoSelect [⟨0, 0⟩] 0).selected = some best ∧
      (renderFrame [⟨0, 0⟩] PlaybackState.playing
          (some fun _ => Except.error ()) 0).released.count best = 1 ∧
      (renderFrame [⟨0, 0⟩] PlaybackState.playing (some fun _ => Except.error ()) 0).events
        = [PlayerEvent.errorEvent (some VegaErrorCode.RENDER_ERROR)] ∧
      (renderFrame [⟨0, 0⟩] PlaybackState.playing (some fun _ => Except.error ()) 0).drawn
        = none ∧
      (renderFrame [⟨0, 0⟩] PlaybackState.playing (some fun _ => Except.error ()) 0).state
        = PlaybackState.playing :=
  adapterThrow_tick [⟨0, 0⟩] PlaybackState.playing (fun _ => Except.error ()) 0
    (by simp) (by simp) (fun _ => rfl)

/-- C9 witness: the amended release property at a concrete one-frame
buffer with an adapter returning a fresh frame. -/
theorem adapterReturn_release_witness :
    ∃ best, (renderVideoSelect [⟨0, 0⟩] 0).selected = some best ∧
      ((fun _ => Except.ok ⟨1, 5⟩ : Frame → Except Unit Frame) best = Except.ok best →
        (renderFrame [⟨0, 0⟩] PlaybackState.playing
            (some fun _ => Except.ok ⟨1, 5⟩) 0).released.count best = 0 ∧
        (renderFrame [⟨0, 0⟩] PlaybackState.playing
            (some fun _ => Except.ok ⟨1, 5⟩) 0).drawn = some best) ∧
      (∀ g, (fun _ => Except.ok ⟨1, 5⟩ : Frame → Except Unit Frame) best = Except.ok g → g ≠ best →
        (renderFrame [⟨0, 0⟩] PlaybackState.playing
            (some fun _ => Except.ok ⟨1, 5⟩) 0).released.count best = 1 ∧
        (renderFrame [⟨0, 0⟩] PlaybackState.playing
            (some fun _ => Except.ok ⟨1, 5⟩) 0).drawn = some g) :=
  adapterReturn_release [⟨0, 0⟩] PlaybackState.playing (fun _ => Except.ok ⟨1, 5⟩) 0
    (by simp) (by simp)

/-- C6: with media of duration `d` loaded, `seek(t)` clamps the target
to `[0, d]`, releases every render-side pending frame and every
decode-side buffered frame (both buffers end empty), resolves only after
the worker acknowledges with `seek-done` (the resolution is the last
action, strictly after the acknowledgement), and resolves with the
session state `playing` exactly when it was playing before the seek,
`paused` otherwise. -/
theorem seek_contract (s : PlayerSeekState) (t d : Rat) (h : s.mediaDuration = some d) :
    ∃ s2 trace, seek s t = Except.ok (s2, trace) ∧
      s2.currentTimeStored = max 0 (min t d) ∧
      s2.pending = [] ∧
      s2.workerFrames = [] ∧
      (∀ f ∈ s.pending, SeekAction.closeRenderFrame f ∈ trace) ∧
      (∀ f ∈ s.workerFrames, SeekAction.closeWorkerFrame f ∈ trace) ∧
      (∃ pre, trace = pre ++ [SeekAction.seekDone (max 0 (min t d)),
        SeekAction.seekedEvent, SeekAction.promiseResolved]) ∧
      s2.state = (if s.state = PlaybackState.playing
        then PlaybackState.playing else PlaybackState.paused) := by
  have hseek : seek s t = Except.ok
      (⟨if s.state = PlaybackState.playing then PlaybackState.playing else PlaybackState.paused,
        s.mediaDuration, max 0 (min t d), [], []⟩,
        (if s.state = PlaybackState.playing then [SeekAction.pauseCmd] else [])
          ++ [SeekAction.seekingEvent]
          ++ s.pending.map SeekAction.closeRenderFrame
          ++ [SeekAction.seekCmd (max 0 (min t d))]
          ++ s.workerFrames.map SeekAction.closeWorkerFrame
          ++ [SeekAction.decoderFlush, SeekAction.decoderRefill,
              SeekAction.seekDone (max 0 (min t d)), SeekAction.seekedEvent,
              SeekAction.promiseResolved]) := by
    unfold seek
    rw [h]
  refine ⟨_, _, hseek, rfl, rfl, rfl, ?_, ?_, ?_, rfl⟩
  · intro f hf
    simp [List.mem_append, List.mem_map]
    tauto
  · intro f hf
    simp [List.mem_append, List.mem_map]
    tauto
  · refine ⟨(if s.state = PlaybackState.playing then [SeekAction.pauseCmd] else [])
      ++ [SeekAction.seekingEvent]
      ++ s.pending.map SeekAction.closeRenderFrame
      ++ [SeekAction.seekCmd (max 0 (min t d))]
      ++ s.workerFrames.map SeekAction.closeWorkerFrame
      ++ [SeekAction.decoderFlush, SeekAction.decoderRefill], ?_⟩
    simp

/-- Closed form of the fill loop: when both bounds hold initially it
submits `min(TARGET - queueSize, samples available)` samples, otherwise
none. -/
theorem fillLoop_spec (bufLen : Nat) (samples : List EncSample) :
    ∀ queueSize : Nat,
      fillLoop bufLen samples queueSize =
        if bufLen < FRAME_BUFFER_TARGET ∧ queueSize < FRAME_BUFFER_TARGET then
          (samples.drop (min (FRAME_BUFFER_TARGET - queueSize) samples.length),
            queueSize + min (FRAME_BUFFER_TARGET - queueSize) samples.length,
            min (FRAME_BUFFER_TARGET - queueSize) samples.length)
        else (samples, queueSize, 0) := by
  induction samples with
  | nil =>
    intro queueSize
    by_cases hc : bufLen < FRAME_BUFFER_TARGET ∧ queueSize < FRAME_BUFFER_TARGET <;>
      simp [fillLoop, hc]
  | cons s rest ih =>
    intro queueSize
    by_cases hc : bufLen < FRAME_BUFFER_TARGET ∧ queueSize < FRAME_BUFFER_TARGET
    · rw [if_pos hc]
      have hstep : fillLoop bufLen (s :: rest) queueSize
          = ((fillLoop bufLen rest (queueSize + 1)).1,
             (fillLoop bufLen rest (queueSize + 1)).2.1,
             (fillLoop bufLen rest (queueSize + 1)).2.2 + 1) := by
        simp [fillLoop, hc]
      rw [hstep, ih (queueSize + 1)]
      by_cases hc2 : bufLen < FRAME_BUFFER_TARGET ∧ queueSize + 1 < FRAME_BUFFER_TARGET
      · rw [if_pos hc2]
        simp only [FRAME_BUFFER_TARGET, List.length_cons] at hc hc2 ⊢
        have h1 : min (3 - queueSize) (rest.length + 1)
            = min (3 - (queueSize + 1)) rest.length + 1 := by omega
        rw [h1, List.drop_succ_cons]
        have h2 : queueSize + ((3 - (queueSize + 1)) ⊓ rest.length + 1)
            = queueSize + 1 + (3 - (queueSize + 1)) ⊓ rest.length := by omega
        rw [h2]
      · rw [if_neg hc2]
        simp only [FRAME_BUFFER_TARGET, List.length_cons] at hc hc2 ⊢
        have h1 : min (3 - queueSize) (rest.length + 1) = 1 := by omega
        rw [h1]
        simp [List.drop_one]
    · rw [if_neg hc]
      simp [fillLoop, hc]

/-- C8: `fillBuffer` is re-entrant-safe — while a fill is in flight any
further call returns the state unchanged with no sample pulled and no
decode submitted; when not in flight it submits samples exactly while
the frame buffer is below the target depth (3) and the decoder queue is
below the saturation threshold (3), consuming exactly the samples it
submits, and stops only at source exhaustion or when a bound is
reached. -/
theorem fillBuffer_contract (st : DecoderState) :
    (st.fillInProgress = true → fillBuffer st = (st, 0)) ∧
    (st.fillInProgress = false →
      (fillBuffer st).2
          = (if st.frameBufferLen < FRAME_BUFFER_TARGET
                ∧ st.decodeQueueSize < FRAME_BUFFER_TARGET
             then min (FRAME_BUFFER_TARGET - st.decodeQueueSize) st.samples.length
             else 0) ∧
      (fillBuffer st).1.samples = st.samples.drop (fillBuffer st).2 ∧
      (fillBuffer st).1.decodeQueueSize = st.decodeQueueSize + (fillBuffer st).2 ∧
      (fillBuffer st).1.frameBufferLen = st.frameBufferLen ∧
      (fillBuffer st).1.fillInProgress = false ∧
      ((fillBuffer st).1.samples = [] ∨
        ¬ ((fillBuffer st).1.frameBufferLen < FRAME_BUFFER_TARGET
            ∧ (fillBuffer st).1.decodeQueueSize < FRAME_BUFFER_TARGET))) := by
  constructor
  · intro hip
    unfold fillBuffer
    rw [if_pos hip]
  · intro hip
    have hfb : fillBuffer st
        = ({ fillInProgress := false
             frameBufferLen := st.frameBufferLen
             decodeQueueSize := (fillLoop st.frameBufferLen st.samples st.decodeQueueSize).2.1
             samples := (fillLoop st.frameBufferLen st.samples st.decodeQueueSize).1 },
           (fillLoop st.frameBufferLen st.samples st.decodeQueueSize).2.2) := by
      unfold fillBuffer
      rw [if_neg (by rw [hip]; simp)]
    rw [hfb, fillLoop_spec st.frameBufferLen st.samples st.decodeQueueSize]
    by_cases hc : st.frameBufferLen < FRAME_BUFFER_TARGET
        ∧ st.decodeQueueSize < FRAME_BUFFER_TARGET
    · rw [if_pos hc, if_pos hc]
      refine ⟨rfl, rfl, rfl, rfl, rfl, ?_⟩
      dsimp only
      simp only [FRAME_BUFFER_TARGET] at hc ⊢
      by_cases hex : st.samples.length ≤ 3 - st.decodeQueueSize
      · refine Or.inl ?_
        have hmin : min (3 - st.decodeQueueSize) st.samples.length = st.samples.length := by
          omega
        rw [hmin]
        simp
      · refine Or.inr ?_
        simp only [not_and, not_lt]
        intro _
        have hmin : min (3 - st.decodeQueueSize) st.samples.length
            = 3 - st.decodeQueueSize := by omega
        rw [hmin]
        omega
    · rw [if_neg hc, if_neg hc]
      exact ⟨rfl, by simp, rfl, rfl, rfl, Or.inr hc⟩

/-- C6 witness: seeking to 20 in a 10-second playing session with one
pending and one worker-buffered frame. -/
theorem seek_contract_witness :
    ∃ s2 trace,
      seek (PlayerSeekState.mk PlaybackState.playing (some 10) 0 [⟨0, 0⟩] [⟨1, 5⟩]) 20
        = Except.ok (s2, trace) ∧
      s2.currentTimeStored = max 0 (min 20 10) ∧
      s2.pending = [] ∧
      s2.workerFrames = [] ∧
      (∀ f ∈ (PlayerSeekState.mk PlaybackState.playing (some 10) 0 [⟨0, 0⟩] [⟨1, 5⟩]).pending,
        SeekAction.closeRenderFrame f ∈ trace) ∧
      (∀ f ∈ (PlayerSeekState.mk PlaybackState.playing (some 10) 0 [⟨0, 0⟩] [⟨1, 5⟩]).workerFrames,
        SeekAction.closeWorkerFrame f ∈ trace) ∧
      (∃ pre, trace = pre ++ [SeekAction.seekDone (max 0 (min 20 10)),
        SeekAction.seekedEvent, SeekAction.promiseResolved]) ∧
      s2.state = (if (PlayerSeekState.mk PlaybackState.playing (some 10) 0
          [⟨0, 0⟩] [⟨1, 5⟩]).state = PlaybackState.playing
        then PlaybackState.playing else PlaybackState.paused) :=
  seek_contract (PlayerSeekState.mk PlaybackState.playing (some 10) 0 [⟨0, 0⟩] [⟨1, 5⟩]) 20 10 rfl

/-- C8 witness: a no-op re-entrant call, and a fresh fill submitting
`min(3, 5) = 3` of five available samples. -/
theorem fillBuffer_contract_witness :
    (fillBuffer (DecoderState.mk true 0 0 [⟨0, 0, 1, true⟩])
        = ((DecoderState.mk true 0 0 [⟨0, 0, 1, true⟩]), 0)) ∧
    ((fillBuffer (DecoderState.mk false 0 0
        [⟨0, 0, 1, true⟩, ⟨1, 0, 1, false⟩, ⟨2, 0, 1, false⟩,
          ⟨3, 0, 1, false⟩, ⟨4, 0, 1, false⟩])).2
      = (if (0 : Nat) < FRAME_BUFFER_TARGET ∧ (0 : Nat) < FRAME_BUFFER_TARGET
         then min (FRAME_BUFFER_TARGET - 0)
            ([(⟨0, 0, 1, true⟩ : EncSample), ⟨1, 0, 1, false⟩, ⟨2, 0, 1, false⟩,
              ⟨3, 0, 1, false⟩, ⟨4, 0, 1, false⟩].length)
         else 0)) := by
  constructor
  · exact (fillBuffer_contract (DecoderState.mk true 0 0 [⟨0, 0, 1, true⟩])).1 rfl
  · exact ((fillBuffer_contract (DecoderState.mk false 0 0
      [⟨0, 0, 1, true⟩, ⟨1, 0, 1, false⟩, ⟨2, 0, 1, false⟩,
        ⟨3, 0, 1, false⟩, ⟨4, 0, 1, false⟩])).2 rfl).1
